import Mathlib

/-!
Verification development of the assessment normalization & scoring pipeline.

Numbers are embedded as rationals (`ℚ`): every arithmetic operation the
scoring code performs (floor, comparisons, `Math.round`, `Math.min`/`max`,
addition, division by small integers, `toFixed`) is exact on the IEEE doubles
that arise here, so the rational semantics coincides with the JavaScript one
on the scoring domain.  `Math.round` in JavaScript rounds half-way cases
toward positive infinity, i.e. it is `fun x => ⌊x + 1/2⌋` on the exact value
of its argument.
-/

namespace Scoring

/-- Banded IELTS rounding, from `roundIELTS` (the attempts/finish router):
`floor = Math.floor(x); frac = x - floor; frac < 0.25 → floor;
frac < 0.75 → floor + 0.5; otherwise floor + 1`. -/
def roundIELTS (x : ℚ) : ℚ :=
  if x - ⌊x⌋ < 1/4 then (⌊x⌋ : ℚ)
  else if x - ⌊x⌋ < 3/4 then (⌊x⌋ : ℚ) + 1/2
  else (⌊x⌋ : ℚ) + 1

/-- JavaScript `Math.round`: nearest integer, half-way cases toward `+∞`. -/
def jsRound (x : ℚ) : ℚ := (⌊x + 1/2⌋ : ℚ)

/-- Naive half rounding, from `server.ts`:
`const roundHalf = (n) => Math.round(n * 2) / 2;` (the same expression is the
`roundToHalf` helper of the writing/speaking scorers). -/
def roundHalf (n : ℚ) : ℚ := jsRound (n * 2) / 2

/-- A JavaScript value of TypeScript type `number | null | undefined`:
a (non-NaN) number, `NaN`, `null`, or `undefined`. -/
inductive JSNum where
  | num (q : ℚ)
  | nan
  | null
  | undef
deriving DecidableEq, Repr

/-- Type-guard filter `(v): v is number => typeof v === 'number' &&
!Number.isNaN(v)` used by `meanHalf`: keeps exactly the non-NaN numbers
(`typeof NaN === 'number'` but `Number.isNaN(NaN)` holds). -/
def numFilter : JSNum → Option ℚ
  | JSNum.num q => some q
  | JSNum.nan => none
  | JSNum.null => none
  | JSNum.undef => none

/-- Aggregation helper `meanHalf` of the attempts/finish router:
`vals.filter(v => typeof v === 'number' && !Number.isNaN(v))`; if the
filtered list is empty return `null`, else `roundIELTS` of its mean
(`reduce((a,b) => a+b, 0) / length`). -/
def meanHalf (vals : List JSNum) : Option ℚ :=
  let nums := vals.filterMap numFilter
  if nums = [] then none
  else some (roundIELTS (nums.foldl (· + ·) 0 / nums.length))

/-- Embeds a band that is a number or `null` as a `JSNum`. -/
def ofOpt : Option ℚ → JSNum
  | none => JSNum.null
  | some q => JSNum.num q

/-- Overall band of the attempts/finish router (the cross-section
aggregator of `part_003`): `meanHalf([bandListening, bandReading,
bandWriting, bandSpeaking])`. -/
def finishOverall (l r w s : Option ℚ) : Option ℚ :=
  meanHalf [ofOpt l, ofOpt r, ofOpt w, ofOpt s]

/-- Overall band of the `server.ts` finish endpoint:
`present = [L, R, W, S].filter(x => x !== null);
overall = present.length ? roundHalf(present.reduce((a,b) => a+b, 0) / present.length) : null`. -/
def serverOverall (l r w s : Option ℚ) : Option ℚ :=
  let present := [l, r, w, s].filterMap id
  if present = [] then none
  else some (roundHalf (present.foldl (· + ·) 0 / present.length))

/-- Listening raw-to-band lookup of `part_000` (diagnostic ceiling:
`return 6.5; // capped (was 7.5)` in the last bucket). -/
def computeListeningBand (rawScore : ℚ) : ℚ :=
  if rawScore ≤ 1 then 9/2
  else if rawScore ≤ 3 then 11/2
  else if rawScore ≤ 5 then 13/2
  else 13/2

/-- Listening raw-to-band lookup of `routes/api.ts` (uncapped top bucket
`return 7.5`). -/
def computeListeningBandApi (rawScore : ℚ) : ℚ :=
  if rawScore ≤ 1 then 9/2
  else if rawScore ≤ 3 then 11/2
  else if rawScore ≤ 5 then 13/2
  else 15/2

/-- Truthiness test `on_topic_percent && on_topic_percent <= 50` from
`score-writing.ts`: `undefined` and `0` are falsy in JavaScript, so the
conjunct holds only for a present, non-zero percentage that is `≤ 50`. -/
def otpCapTriggers : Option ℚ → Bool
  | none => false
  | some q => if q = 0 then false else decide (q ≤ 50)

/-- Server-side post-processing of `score-writing.ts` (lines 332-350):
`if (off_topic === true || (on_topic_percent && on_topic_percent <= 50))
band_overall = Math.min(band_overall, 3.0);`
`if (word_count < minRequiredWords) band_overall = Math.min(band_overall, 5.0);`
then `band_overall = roundToHalf(band_overall)`. -/
def scoreWritingPost (band_overall : ℚ) (off_topic : Bool)
    (on_topic_percent : Option ℚ) (word_count minRequiredWords : ℕ) : ℚ :=
  let b1 := if off_topic = true ∨ otpCapTriggers on_topic_percent then
      min band_overall 3 else band_overall
  let b2 := if word_count < minRequiredWords then min b1 5 else b1
  roundHalf b2

/-- Cap at 6.5, from `speaking-scorer.ts`: `const cap65 = (n) => Math.min(6.5, n)`. -/
def cap65 (n : ℚ) : ℚ := min (13/2) n

/-- Per-criterion processing of `speaking-scorer.ts`:
`result.bands.X = cap65(roundHalf(result.bands.X ?? 5.5))`. -/
def speakingBand (b : Option ℚ) : ℚ := cap65 (roundHalf (b.getD (11/2)))

/-- Composite of `speaking-scorer.ts`:
`result.overall = cap65(roundHalf((b1 + b2 + b3 + b4) / 4))` where each `bi`
is the processed band (the inner `?? 5.5` re-defaulting is inert because the
bands were just assigned numbers). -/
def speakingOverall (fc lx gr pr : Option ℚ) : ℚ :=
  cap65 (roundHalf
    ((speakingBand fc + speakingBand lx + speakingBand gr + speakingBand pr) / 4))

end Scoring

namespace JsStr

/-!
Character-level embedding of the JavaScript string operations used by the
transcript processors.  Strings are `List Char`; the regex character
classes are restricted to their ASCII meaning (`\s` = space/tab/newline/CR,
`\w` = `[A-Za-z0-9_]`), which is exactly what `Char.isAlpha`/`Char.isDigit`
test and covers the transcripts these routines receive.  Scanners that
re-start after a `dropWhile` use a fuel argument (always called with the
input length, which bounds the number of steps since every step consumes at
least one character). -/

/-- JavaScript `\s` (ASCII). -/
def isWsChar (c : Char) : Bool := c == ' ' || c == '\t' || c == '\n' || c == '\r'

/-- JavaScript `\w`, i.e. `[A-Za-z0-9_]`. -/
def isWordChar (c : Char) : Bool := c.isAlpha || c.isDigit || c == '_'

/-- Sentence-ending punctuation `[.!?]`. -/
def isEnder (c : Char) : Bool := c == '.' || c == '!' || c == '?'

/-- The class `[,.!?;:]` of the punctuation-spacing fixes. -/
def isPunct (c : Char) : Bool :=
  c == ',' || c == '.' || c == '!' || c == '?' || c == ';' || c == ':'

/-- The class `[\s,.-]` of the filler-run separator. -/
def isSepChar (c : Char) : Bool := isWsChar c || c == ',' || c == '.' || c == '-'

/-- Replace every whitespace run by one space: `.replace(/\s+/g, ' ')`. -/
def squeezeWs (l : List Char) : List Char :=
  ((l.foldl (fun (acc : List Char × Bool) c =>
      if isWsChar c then
        if acc.2 then acc else (' ' :: acc.1, true)
      else (c :: acc.1, false))
    ([], false)).1).reverse

/-- JavaScript `String.prototype.trim` (ASCII whitespace). -/
def trimWs (l : List Char) : List Char :=
  ((l.dropWhile isWsChar).reverse.dropWhile isWsChar).reverse

/-- The compaction `.replace(/\s+/g, ' ').trim()`. -/
def normalizeWsStr (l : List Char) : List Char := trimWs (squeezeWs l)

/-- JavaScript `toLowerCase` on ASCII text. -/
def toLowerL (l : List Char) : List Char := l.map Char.toLower

/-- Split by `/(?<=[.!?])\s+/`: cut after an ender that is followed by
whitespace, the ender stays with the preceding piece and the whitespace run
is consumed.  `acc` holds the current piece reversed. -/
def splitAfterEnders : Nat → List Char → List Char → List (List Char)
  | 0, l, acc => [acc.reverse ++ l]
  | _, [], acc => [acc.reverse]
  | fuel+1, c :: cs, acc =>
    if isEnder c && (match cs with | d :: _ => isWsChar d | [] => false) then
      (c :: acc).reverse :: splitAfterEnders fuel (cs.dropWhile isWsChar) []
    else splitAfterEnders fuel cs (c :: acc)

/-- Split by `/[.!?]+/`: pieces between runs of enders (the separators are
dropped). -/
def splitOnEnders : Nat → List Char → List Char → List (List Char)
  | 0, l, acc => [acc.reverse ++ l]
  | _, [], acc => [acc.reverse]
  | fuel+1, c :: cs, acc =>
    if isEnder c then
      acc.reverse :: splitOnEnders fuel (cs.dropWhile isEnder) []
    else splitOnEnders fuel cs (c :: acc)

/-- Split by `/\s+/`: pieces between whitespace runs. -/
def splitOnWs : Nat → List Char → List Char → List (List Char)
  | 0, l, acc => [acc.reverse ++ l]
  | _, [], acc => [acc.reverse]
  | fuel+1, c :: cs, acc =>
    if isWsChar c then
      acc.reverse :: splitOnWs fuel (cs.dropWhile isWsChar) []
    else splitOnWs fuel cs (c :: acc)

/-- JavaScript `Array.prototype.join(' ')`. -/
def joinSp (parts : List (List Char)) : List Char := List.intercalate [' '] parts

/-- The fix `.replace(/\s+([,.!?;:])/g, '$1')`: drop a whitespace run that
sits directly before punctuation. -/
def rmWsBeforePunct : Nat → List Char → List Char
  | 0, l => l
  | _, [] => []
  | fuel+1, c :: cs =>
    if isWsChar c then
      match cs.dropWhile isWsChar with
      | d :: ds =>
        if isPunct d then rmWsBeforePunct fuel (d :: ds)
        else c :: rmWsBeforePunct fuel cs
      | [] => c :: rmWsBeforePunct fuel cs
    else c :: rmWsBeforePunct fuel cs

/-- The fix `.replace(/([.!?])\s*/g, '$1 ')`: every ender is followed by
exactly one space (the final `trim` of the caller removes a trailing one). -/
def spaceAfterEnders : Nat → List Char → List Char
  | 0, l => l
  | _, [] => []
  | fuel+1, c :: cs =>
    if isEnder c then c :: ' ' :: spaceAfterEnders fuel (cs.dropWhile isWsChar)
    else c :: spaceAfterEnders fuel cs

/-- The fix `.replace(/([.!?])\s+([a-z])/g, punct-space-uppercase)`:
capitalize a lowercase letter after sentence-ending punctuation, collapsing
the in-between whitespace run to one space. -/
def capAfterEnders : Nat → List Char → List Char
  | 0, l => l
  | _, [] => []
  | fuel+1, c :: cs =>
    if isEnder c then
      match cs with
      | d :: _ =>
        if isWsChar d then
          match cs.dropWhile isWsChar with
          | e :: rest2 =>
            if e.isLower then c :: ' ' :: e.toUpper :: capAfterEnders fuel rest2
            else c :: capAfterEnders fuel cs
          | [] => c :: capAfterEnders fuel cs
        else c :: capAfterEnders fuel cs
      | [] => [c]
    else c :: capAfterEnders fuel cs

/-- The fix `.replace(/\bi\b/g, 'I')`: a lowercase `i` with no word
character on either side becomes `I`.  `prevW` records whether the previous
character was a word character. -/
def capStandaloneI : Bool → List Char → List Char
  | _, [] => []
  | prevW, c :: cs =>
    if c == 'i' && !prevW && (match cs with | d :: _ => !isWordChar d | [] => true) then
      'I' :: capStandaloneI true cs
    else c :: capStandaloneI (isWordChar c) cs

/-- The fix `.replace(/^[a-z]/, c => c.toUpperCase())`. -/
def capFirst : List Char → List Char
  | [] => []
  | c :: cs => if c.isLower then c.toUpper :: cs else c :: cs

/-- Matches a fixed pattern (given lowercase) case-insensitively at the
front, returning the consumed original-case text and the remainder. -/
def consumeCI : List Char → List Char → Option (List Char × List Char)
  | [], l => some ([], l)
  | _ :: _, [] => none
  | p :: ps, c :: cs =>
    if c.toLower == p then (consumeCI ps cs).map fun pr => (c :: pr.1, pr.2)
    else none

/-- Matches a pattern of shape `pre · rep+` (e.g. `um+`, `hmm+`)
case-insensitively and greedily.  The repeat character is a word character,
so the regex can only succeed with the maximal run (any backtracked shorter
run is followed by a word character and fails the trailing `\b`). -/
def matchRepeat (pre : List Char) (rep : Char) (l : List Char) :
    Option (List Char × List Char) :=
  match consumeCI pre l with
  | some (took, rest) =>
    let run := rest.takeWhile fun c => c.toLower == rep
    if run.isEmpty then none
    else some (took ++ run, rest.drop run.length)
  | none => none

/-- The alternation `um+|uh+|er+|ah+|hmm+|you know|like|I mean` (in the
regex order; the alternatives are mutually exclusive by their first two
characters, so first-match is the regex choice). -/
def matchFillerCore (l : List Char) : Option (List Char × List Char) :=
  (matchRepeat ['u'] 'm' l).orElse fun _ =>
  (matchRepeat ['u'] 'h' l).orElse fun _ =>
  (matchRepeat ['e'] 'r' l).orElse fun _ =>
  (matchRepeat ['a'] 'h' l).orElse fun _ =>
  (matchRepeat ['h', 'm'] 'm' l).orElse fun _ =>
  (consumeCI ['y', 'o', 'u', ' ', 'k', 'n', 'o', 'w'] l).orElse fun _ =>
  (consumeCI ['l', 'i', 'k', 'e'] l).orElse fun _ =>
  consumeCI ['i', ' ', 'm', 'e', 'a', 'n'] l

/-- JavaScript `hay.includes(needle)`: contiguous-substring test. -/
def containsSeq (needle : List Char) : List Char → Bool
  | [] => needle.isEmpty
  | c :: cs => needle.isPrefixOf (c :: cs) || containsSeq needle cs

/-- One match of `\b(um+|uh+|er+|ah+|hmm+|you know|like|I mean)\b` starting
at the current position (the caller guarantees the leading `\b`); the
trailing `\b` demands a non-word character or the end next. -/
def matchFiller (l : List Char) : Option (List Char × List Char) :=
  match matchFillerCore l with
  | some (m, rest) =>
    match rest with
    | [] => some (m, [])
    | d :: _ => if isWordChar d then none else some (m, rest)
  | none => none

end JsStr

namespace TranscriptProcessor

open JsStr

/-!
Embedding of `backend/src/utils/transcriptProcessor.ts`.
-/

/-- Result record of `processTranscript`. -/
structure ProcessedTranscript where
  text : List Char
  sentences : List (List Char)
  wordCount : Nat
  fillerWords : List (List Char)
  fillerCount : Nat
deriving DecidableEq, Repr

/-- Scanner for `text.match(fillerPattern)` with the global flag:
left-to-right, non-overlapping matches.  `prevW` tracks whether the
previous character is a word character; every alternative starts with a
word character, so the leading `\b` holds exactly when `prevW` is false. -/
def extractFillersAux : Nat → Bool → List Char → List (List Char)
  | 0, _, _ => []
  | _, _, [] => []
  | fuel+1, prevW, c :: cs =>
    if !prevW then
      match matchFiller (c :: cs) with
      | some (m, rest) => m :: extractFillersAux fuel true rest
      | none => extractFillersAux fuel (isWordChar c) cs
    else extractFillersAux fuel (isWordChar c) cs

/-- `extractFillers` of `transcriptProcessor.ts`: all filler matches of the
raw text, lowercased. -/
def extractFillers (l : List Char) : List (List Char) :=
  (extractFillersAux l.length false l).map toLowerL

/-- Tries `[\s,.-]{k}\b\1\b` with exactly `k` separator characters:
`prev` is the character before the separator (for the `\b` when `k = 0`),
`m` the captured filler text (`\1` matches it case-insensitively under the
`i` flag). -/
def tryRepAt (m : List Char) (prev : Char) (l : List Char) (k : Nat) :
    Option (List Char) :=
  let sep := l.take k
  if sep.length == k && sep.all isSepChar then
    let rest := l.drop k
    let prev2 : Char := if k == 0 then prev else sep.getLastD prev
    let nextW : Bool := match rest with | d :: _ => isWordChar d | [] => false
    if isWordChar prev2 != nextW then
      match consumeCI (toLowerL m) rest with
      | some (took, rest2) =>
        let afterW : Bool := match rest2 with | d :: _ => isWordChar d | [] => false
        if isWordChar (took.getLastD 'x') != afterW then some rest2 else none
      | none => none
    else none
  else none

/-- Backtracking order of the greedy `[\s,.-]{0,3}`: longest separator
first, down to the empty one. -/
def tryOneRepFrom (m : List Char) (prev : Char) (l : List Char) :
    Nat → Option (List Char)
  | 0 => tryRepAt m prev l 0
  | k + 1 =>
    match tryRepAt m prev l (k + 1) with
    | some r => some r
    | none => tryOneRepFrom m prev l k

/-- One group `(?:[\s,.-]{0,3}\b\1\b)` after a matched filler. -/
def tryOneRep (m : List Char) (prev : Char) (l : List Char) : Option (List Char) :=
  tryOneRepFrom m prev l (min 3 (l.takeWhile isSepChar).length)

/-- Consume as many further repetition groups as possible (the `{1,}` is
greedy; the character before each group is the last character of the
previous `\1`, whose word-ness equals that of `m`'s last character). -/
def eatReps : Nat → List Char → Char → List Char → List Char
  | 0, _, _, l => l
  | fuel+1, m, prev, l =>
    match tryOneRep m prev l with
    | some rest => eatReps fuel m prev rest
    | none => l

/-- Scanner for the run-collapsing
`replace(/\b(filler)\b(?:[\s,.-]{0,3}\b\1\b){1,}/gi, first-filler)`:
a matched run is replaced by its first filler occurrence; a filler with no
repetition after it is left unchanged (no later match can start inside it:
its characters are word characters, apart from the inner space of
`you know`/`I mean` after which no alternative can match). -/
def collapseRunsAux : Nat → Bool → List Char → List Char
  | 0, _, l => l
  | _, _, [] => []
  | fuel+1, prevW, c :: cs =>
    if !prevW then
      match matchFiller (c :: cs) with
      | some (m, rest) =>
        match tryOneRep m (m.getLastD c) rest with
        | some rest1 => m ++ collapseRunsAux fuel true (eatReps fuel m (m.getLastD c) rest1)
        | none => m ++ collapseRunsAux fuel true rest
      | none => c :: collapseRunsAux fuel (isWordChar c) cs
    else c :: collapseRunsAux fuel (isWordChar c) cs

/-- `normalizeFillers` of `transcriptProcessor.ts`: collapse runs of the
same filler, then `.replace(/\s+/g, ' ').trim()`. -/
def normalizeFillers (l : List Char) : List Char :=
  if l.isEmpty then []
  else normalizeWsStr (collapseRunsAux l.length false l)

/-- Loop body of `deduplicateSentences` (the kept list is held reversed, so
`deduplicated[deduplicated.length - 1]` is the head).  The ratio test
`normalized.length < lastNorm.length * 1.5` is the exact integer comparison
`2 * len < 3 * lastLen`. -/
def dedupStep (acc : List (List Char)) (sentence : List Char) : List (List Char) :=
  let normalized := trimWs (toLowerL sentence)
  if normalized.isEmpty then acc
  else
    let last := acc.headD []
    let lastNorm := trimWs (toLowerL last)
    if normalized == lastNorm then acc
    else if !lastNorm.isEmpty
        && (lastNorm.isPrefixOf normalized
            || normalized.isPrefixOf lastNorm
            || (containsSeq lastNorm normalized
                && decide (2 * normalized.length < 3 * lastNorm.length))) then
      if lastNorm.length < normalized.length then
        match acc with
        | [] => [sentence]
        | _ :: rest => sentence :: rest
      else acc
    else sentence :: acc

/-- `deduplicateSentences` of `transcriptProcessor.ts`: compact whitespace,
split after sentence enders, drop exact or near duplicates of the
immediately preceding kept sentence, join with spaces. -/
def deduplicateSentences (l : List Char) : List Char :=
  if (trimWs l).isEmpty then []
  else
    let compact := normalizeWsStr l
    let parts := ((splitAfterEnders compact.length compact []).map trimWs).filter
      fun s => !s.isEmpty
    trimWs (joinSp (parts.foldl dedupStep []).reverse)

/-- `fixCapitalization` of `transcriptProcessor.ts`, the five replacements
in source order framed by the leading and trailing `trim`. -/
def fixCapitalization (l : List Char) : List Char :=
  if l.isEmpty then []
  else
    let r := trimWs l
    let r := capFirst r
    let r := capAfterEnders r.length r
    let r := capStandaloneI false r
    let r := rmWsBeforePunct r.length r
    let r := spaceAfterEnders r.length r
    trimWs r

/-- Maximal runs of characters satisfying `p`. -/
def runsOf (p : Char → Bool) : Nat → List Char → List (List Char)
  | 0, _ => []
  | _, [] => []
  | fuel+1, c :: cs =>
    if p c then (c :: cs.takeWhile p) :: runsOf p fuel ((c :: cs).dropWhile p)
    else runsOf p fuel cs

/-- Count of `processed.match(/\b[\w']+\b/g)`: a maximal `[\w']+` run
matches exactly when it contains a word character (the boundaries trim
leading/trailing apostrophes but cannot make an all-apostrophe run match). -/
def countWordTokens (l : List Char) : Nat :=
  ((runsOf (fun c => isWordChar c || c == '\'') l.length l).filter
    fun r => r.any isWordChar).length

/-- `processTranscript` of `transcriptProcessor.ts`: the full pipeline. -/
def processTranscript (rawText : List Char) : ProcessedTranscript :=
  if (trimWs rawText).isEmpty then
    { text := [], sentences := [], wordCount := 0, fillerWords := [], fillerCount := 0 }
  else
    let fillerWords := extractFillers rawText
    let processed := fixCapitalization (normalizeFillers (deduplicateSentences rawText))
    let sentences := ((splitAfterEnders processed.length processed []).map trimWs).filter
      fun s => !s.isEmpty
    { text := processed
      sentences := sentences
      wordCount := countWordTokens processed
      fillerWords := fillerWords
      fillerCount := fillerWords.length }

end TranscriptProcessor

namespace SpeakingFeatures

open JsStr

/-!
Embedding of the two `processTranscript` variants of the unnamed speaking
feature-extractor source file (`part_018`).  The second variant differs from
the first only in clamping `speechDuration` at `0` for non-empty segment
lists (`Math.max(0, lastEnd - firstStart)` versus the unclamped
`(segments.at(-1)?.end ?? 0) - (segments[0]?.start ?? 0)`).
-/

/-- A time-aligned recognizer segment; the optional `end` field is named
`stop` (`end` is reserved in Lean) and the unused `text` field is omitted. -/
structure Segment where
  start : Option ℚ
  stop : Option ℚ
deriving DecidableEq, Repr, Inhabited

/-- Result record (the `audioFeatures` object; `Number(x.toFixed(k))`
rounding included in each field as in the source). -/
structure AudioFeatures where
  wpm : ℚ
  fillerPer100 : ℚ
  longPauseCount : Nat
  pauseCount : Nat
  meanPauseDuration : ℚ
  speechDuration : ℚ
  articulationRate : ℚ
  wordCount : Nat
  sentenceCount : Nat
deriving DecidableEq, Repr

/-- `Number(x.toFixed(1))`: round to 1 decimal, ties toward the larger
value. -/
def toFixed1 (x : ℚ) : ℚ := (⌊x * 10 + 1/2⌋ : ℚ) / 10

/-- `Number(x.toFixed(2))`: round to 2 decimals, ties toward the larger
value. -/
def toFixed2 (x : ℚ) : ℚ := (⌊x * 100 + 1/2⌋ : ℚ) / 100

/-- Split by `/([.!?])\s+/` with the capture group: JavaScript `split`
interleaves the captured separators into the result, so the output is
`piece, ender, piece, ender, …, piece` (with an empty trailing piece when
the input ends at a separator). -/
def splitCapture : Nat → List Char → List Char → List (List Char)
  | 0, l, acc => [acc.reverse ++ l]
  | _, [], acc => [acc.reverse]
  | fuel+1, c :: cs, acc =>
    if isEnder c && (match cs with | d :: _ => isWsChar d | [] => false) then
      acc.reverse :: [c] :: splitCapture fuel (cs.dropWhile isWsChar) []
    else splitCapture fuel cs (c :: acc)

/-- JavaScript `/[.!?]/.test(s)`: does the string contain an ender? -/
def testEnder (l : List Char) : Bool := l.any isEnder

/-- The `reduce` of `deduplicate`: each part is glued to the next array
entry when that entry contains an ender (`arr[idx + 1] || ''`), trimmed,
and pushed unless empty or a case-insensitive repeat of the last kept
chunk.  `acc` holds the kept chunks reversed. -/
def reduceChunks : List (List Char) → List (List Char) → List (List Char)
  | [], acc => acc.reverse
  | p :: rest, acc =>
    let nxt := rest.headD []
    let chunk := trimWs (p ++ (if testEnder nxt then nxt else []))
    if chunk.isEmpty then reduceChunks rest acc
    else if acc.isEmpty || (toLowerL (acc.headD []) != toLowerL chunk) then
      reduceChunks rest (chunk :: acc)
    else reduceChunks rest acc

/-- `deduplicate` of `part_018`: compact whitespace, split with captured
enders, drop immediate case-insensitive repeats, join with spaces and
remove whitespace before punctuation. -/
def deduplicate (l : List Char) : List Char :=
  if l.isEmpty then []
  else
    let compact := normalizeWsStr l
    let parts := reduceChunks (splitCapture compact.length compact []) []
    let joined := joinSp parts
    rmWsBeforePunct joined.length joined

/-- `sentenceCount` of `part_018`:
`text.split(/[.!?]+/).map(x => x.trim()).filter(Boolean).length`. -/
def sentenceCount (l : List Char) : Nat :=
  (((splitOnEnders l.length l []).map trimWs).filter fun s => !s.isEmpty).length

/-- Matches the word list of one filler pattern (`f.replace(' ', '\\s+')`,
so consecutive words are separated by a whitespace run) literally at the
front of the already-lowercased text, returning the remainder. -/
def matchWords : List (List Char) → List Char → Option (List Char)
  | [], l => some l
  | [w], l => if w.isPrefixOf l then some (l.drop w.length) else none
  | w :: ws, l =>
    if w.isPrefixOf l then
      let rest := l.drop w.length
      let rest2 := rest.dropWhile isWsChar
      if rest2.length < rest.length then matchWords ws rest2 else none
    else none

/-- Counts the global matches of `\bf\b` (with `\s+` for the space of a
two-word filler) on the lowered text: left-to-right, non-overlapping;
every pattern starts and ends with a word character, so the boundaries are
the word-ness of the neighbours. -/
def countFillerOcc (pat : List (List Char)) : Nat → Bool → List Char → Nat
  | 0, _, _ => 0
  | _, _, [] => 0
  | fuel+1, prevW, c :: cs =>
    if !prevW then
      match matchWords pat (c :: cs) with
      | some rest =>
        if (match rest with | d :: _ => isWordChar d | [] => false) then
          countFillerOcc pat fuel (isWordChar c) cs
        else 1 + countFillerOcc pat fuel true rest
      | none => countFillerOcc pat fuel (isWordChar c) cs
    else countFillerOcc pat fuel (isWordChar c) cs

/-- The filler list of `part_018`'s `countFillers` (note: a different list
from `transcriptProcessor.ts`). -/
def fillerWordList : List (List (List Char)) :=
  [ [['u', 'm']], [['u', 'h']], [['e', 'r']], [['e', 'r', 'm']],
    [['l', 'i', 'k', 'e']],
    [['y', 'o', 'u'], ['k', 'n', 'o', 'w']],
    [['i'], ['m', 'e', 'a', 'n']],
    [['s', 'o', 'r', 't'], ['o', 'f']],
    [['k', 'i', 'n', 'd'], ['o', 'f']] ]

/-- `countFillers` of `part_018`: sum of per-filler global match counts on
the lowered text. -/
def countFillers (l : List Char) : Nat :=
  let lowered := toLowerL l
  fillerWordList.foldl (fun acc pat => acc + countFillerOcc pat lowered.length false lowered) 0

/-- The recorded pause gaps, shared by both variants: for each adjacent
pair, `gap = Math.max(0, cur.start - prev.end)`; gaps `> 0.2` are pushed. -/
def pauseGaps (segments : List Segment) : List ℚ :=
  ((segments.zip segments.tail).map fun pr =>
    max 0 ((pr.2.start.getD 0) - (pr.1.stop.getD 0))).filter fun g => decide (1/5 < g)

/-- First `processTranscript` variant of `part_018`: `totalDuration` for a
non-empty segment list is the **unclamped**
`(segments.at(-1)?.end ?? 0) - (segments[0]?.start ?? 0)`; the empty-list
fallback is `Math.max(wordCount / 2.8, 1)`. -/
def processTranscriptV1 (rawText : List Char) (segments : List Segment) :
    List Char × AudioFeatures :=
  let text := deduplicate rawText
  let words := (splitOnWs text.length text []).filter fun s => !s.isEmpty
  let wordCount := words.length
  let sentCount := sentenceCount text
  let totalDuration : ℚ :=
    if segments.length ≠ 0 then
      ((segments.getLastD default).stop.getD 0) - ((segments.headD default).start.getD 0)
    else max ((wordCount : ℚ) / (14/5)) 1
  let wpm : ℚ := if 0 < totalDuration then ((wordCount : ℚ) / totalDuration) * 60 else 0
  let gaps := pauseGaps segments
  let pauseCount := gaps.length
  let longPauseCount := (gaps.filter fun g => decide ((4/5 : ℚ) ≤ g)).length
  let meanPauseDuration : ℚ :=
    if gaps.isEmpty then 0 else (gaps.foldl (· + ·) 0) / gaps.length
  let fillerCount := countFillers text
  let fillerPer100 : ℚ :=
    if wordCount ≠ 0 then ((fillerCount : ℚ) / wordCount) * 100 else 0
  let articulationRate : ℚ :=
    if 0 < totalDuration then ((wordCount : ℚ) * (7/5)) / totalDuration else 0
  (text,
    { wpm := toFixed1 wpm
      fillerPer100 := toFixed2 fillerPer100
      longPauseCount := longPauseCount
      pauseCount := pauseCount
      meanPauseDuration := toFixed2 meanPauseDuration
      speechDuration := toFixed2 totalDuration
      articulationRate := toFixed2 articulationRate
      wordCount := wordCount
      sentenceCount := sentCount })

/-- Second `processTranscript` variant of `part_018`: identical except
`totalDuration = Math.max(0, lastEnd - firstStart)` for a non-empty
segment list. -/
def processTranscriptV2 (rawText : List Char) (segments : List Segment) :
    List Char × AudioFeatures :=
  let text := deduplicate rawText
  let words := (splitOnWs text.length text []).filter fun s => !s.isEmpty
  let wordCount := words.length
  let sentCount := sentenceCount text
  let totalDuration : ℚ :=
    if segments.length ≠ 0 then
      max 0 (((segments.getLastD default).stop.getD 0)
        - ((segments.headD default).start.getD 0))
    else max ((wordCount : ℚ) / (14/5)) 1
  let wpm : ℚ := if 0 < totalDuration then ((wordCount : ℚ) / totalDuration) * 60 else 0
  let gaps := pauseGaps segments
  let pauseCount := gaps.length
  let longPauseCount := (gaps.filter fun g => decide ((4/5 : ℚ) ≤ g)).length
  let meanPauseDuration : ℚ :=
    if gaps.isEmpty then 0 else (gaps.foldl (· + ·) 0) / gaps.length
  let fillerCount := countFillers text
  let fillerPer100 : ℚ :=
    if wordCount ≠ 0 then ((fillerCount : ℚ) / wordCount) * 100 else 0
  let articulationRate : ℚ :=
    if 0 < totalDuration then ((wordCount : ℚ) * (7/5)) / totalDuration else 0
  (text,
    { wpm := toFixed1 wpm
      fillerPer100 := toFixed2 fillerPer100
      longPauseCount := longPauseCount
      pauseCount := pauseCount
      meanPauseDuration := toFixed2 meanPauseDuration
      speechDuration := toFixed2 totalDuration
      articulationRate := toFixed2 articulationRate
      wordCount := wordCount
      sentenceCount := sentCount })

end SpeakingFeatures

/-- The stuttered test utterance of the normalizer example. -/
def c6Input : List Char := "I think I think that the plan works.".data

/-- The collapsed text the example expects. -/
def c6Expected : List Char := "I think that the plan works.".data

/-- A transcript of 140 whitespace-separated one-letter words (so the
word-count of the feature extractor is exactly 140 and no filler matches). -/
def sample140 : List Char := JsStr.joinSp (List.replicate 140 ['h'])

/-- A malformed segment list whose last end (1s) precedes its first start
(10s). -/
def badSegs : List SpeakingFeatures.Segment :=
  [{ start := some 10, stop := some 12 }, { start := some 0, stop := some 1 }]

/-- A well-formed two-segment list with a 1-second gap. -/
def okSegs : List SpeakingFeatures.Segment :=
  [{ start := some 0, stop := some 1 }, { start := some 2, stop := some 3 }]

namespace Scoring

/-- Helper: the banded rounding and the naive JavaScript half rounding agree
on every rational.  Writing `x = ⌊x⌋ + t` with `t ∈ [0,1)`,
`⌊2x + 1/2⌋ = 2⌊x⌋ + ⌊2t + 1/2⌋`, and `⌊2t + 1/2⌋` is `0`, `1`, `2` exactly
on the three bands `t < 1/4`, `1/4 ≤ t < 3/4`, `3/4 ≤ t`. -/
theorem roundIELTS_eq_roundHalf_all (x : ℚ) : roundIELTS x = roundHalf x := by
  have hfl : (⌊x⌋ : ℚ) ≤ x := Int.floor_le x
  have hfu : x < ⌊x⌋ + 1 := Int.lt_floor_add_one x
  have hx : x * 2 + 1/2 = ((2 * ⌊x⌋ : ℤ) : ℚ) + ((x - ⌊x⌋) * 2 + 1/2) := by
    push_cast; ring
  by_cases h1 : x - ⌊x⌋ < 1/4
  · have hf0 : ⌊(x - ⌊x⌋) * 2 + 1/2⌋ = 0 := by
      rw [Int.floor_eq_zero_iff, Set.mem_Ico]
      constructor
      · nlinarith
      · nlinarith
    have hf : ⌊x * 2 + 1/2⌋ = 2 * ⌊x⌋ := by
      rw [hx, Int.floor_int_add, hf0, add_zero]
    simp only [roundIELTS, roundHalf, jsRound, if_pos h1, hf]
    push_cast; ring
  · by_cases h2 : x - ⌊x⌋ < 3/4
    · have hf0 : ⌊(x - ⌊x⌋) * 2 + 1/2⌋ = 1 := by
        rw [Int.floor_eq_iff]
        constructor
        · push_cast; nlinarith [not_lt.mp h1]
        · push_cast; nlinarith
      have hf : ⌊x * 2 + 1/2⌋ = 2 * ⌊x⌋ + 1 := by
        rw [hx, Int.floor_int_add, hf0]
      simp only [roundIELTS, roundHalf, jsRound, if_neg h1, if_pos h2, hf]
      push_cast; ring
    · have hf0 : ⌊(x - ⌊x⌋) * 2 + 1/2⌋ = 2 := by
        rw [Int.floor_eq_iff]
        constructor
        · push_cast; nlinarith [not_lt.mp h2]
        · push_cast; nlinarith
      have hf : ⌊x * 2 + 1/2⌋ = 2 * ⌊x⌋ + 2 := by
        rw [hx, Int.floor_int_add, hf0]
      simp only [roundIELTS, roundHalf, jsRound, if_neg h1, if_neg h2, hf]
      push_cast; ring

/-- Helper: `roundIELTS` fixes integers. -/
theorem roundIELTS_intCast (n : ℤ) : roundIELTS (n : ℚ) = n := by
  simp [roundIELTS, Int.floor_intCast]

/-- Helper: `roundIELTS` fixes half-integers. -/
theorem roundIELTS_int_add_half (n : ℤ) :
    roundIELTS ((n : ℚ) + 1/2) = (n : ℚ) + 1/2 := by
  have hfl : ⌊(n : ℚ) + 1/2⌋ = n := by
    rw [Int.floor_int_add]
    norm_num
  simp only [roundIELTS, hfl]
  norm_num

/-- Helper: mapping every non-number entry to `null` does not change what
`numFilter` keeps. -/
theorem filterMap_numFilter_absent (vals : List JSNum) :
    ((vals.map fun v => match v with
      | JSNum.num q => JSNum.num q
      | _ => JSNum.null).filterMap numFilter) = vals.filterMap numFilter := by
  induction vals with
  | nil => rfl
  | cons v t ih => cases v <;> simp [numFilter, ih]

/-- Helper: a list with no plain-number entry filters to the empty list. -/
theorem filterMap_numFilter_eq_nil (vals : List JSNum)
    (h : ∀ v ∈ vals, v = JSNum.nan ∨ v = JSNum.null ∨ v = JSNum.undef) :
    vals.filterMap numFilter = [] := by
  induction vals with
  | nil => rfl
  | cons v t ih =>
    rcases h v (by simp) with hv | hv | hv <;>
      simp [hv, numFilter, ih fun u hu => h u (by simp [hu])]

/-- C1: the claim asserts the banded rule and the naive
`Math.round(x*2)/2` differ at some raw score in `[0, 9]`.  They do not:
on the exact values JavaScript computes with, the two rounding policies
are the same function, so no such score exists. -/
theorem C1_counterexample :
    ¬ ∃ x : ℚ, 0 ≤ x ∧ x ≤ 9 ∧ roundIELTS x ≠ roundHalf x := by
  rintro ⟨x, -, -, hne⟩
  exact hne (roundIELTS_eq_roundHalf_all x)

/-- C1 (amended): for every raw score `x` in `[0, 9]`, the banded rounding
`roundIELTS` and the naive rule `Math.round(x*2)/2` coincide — the two
conventions are the same rounding policy, not materially different ones. -/
theorem C1_amended (x : ℚ) (_h0 : 0 ≤ x) (_h9 : x ≤ 9) :
    roundIELTS x = roundHalf x :=
  roundIELTS_eq_roundHalf_all x

/-- C1 witness: the amended claim instantiated at the band boundary `4.25`. -/
theorem C1_amended_witness :
    (0 : ℚ) ≤ 17/4 ∧ (17/4 : ℚ) ≤ 9 ∧ roundIELTS (17/4) = roundHalf (17/4) :=
  ⟨by norm_num, by norm_num, C1_amended (17/4) (by norm_num) (by norm_num)⟩

/-- C2: the cross-section aggregator returns `overall = null` exactly when
all four skill bands are `null`; otherwise it returns the half-band rounding
of the mean of the non-null bands only; the `server.ts` variant computes the
same result; and `aggregate(6.5, null, 7.0, null)` yields `7.0`. -/
theorem C2_aggregate (l r w s : Option ℚ) :
    (finishOverall l r w s = none ↔ (l = none ∧ r = none ∧ w = none ∧ s = none))
    ∧ ([l, r, w, s].filterMap id ≠ [] →
        finishOverall l r w s
          = some (roundIELTS (([l, r, w, s].filterMap id).sum
              / ([l, r, w, s].filterMap id).length)))
    ∧ serverOverall l r w s = finishOverall l r w s
    ∧ finishOverall (some (13/2)) none (some 7) none = some 7 := by
  refine ⟨?_, ?_, ?_, ?_⟩
  · rcases l with _ | a <;> rcases r with _ | b <;> rcases w with _ | c <;>
      rcases s with _ | d <;>
      simp [finishOverall, meanHalf, ofOpt, numFilter]
  · rcases l with _ | a <;> rcases r with _ | b <;> rcases w with _ | c <;>
      rcases s with _ | d <;>
      simp [finishOverall, meanHalf, ofOpt, numFilter] <;>
      ring_nf
  · rcases l with _ | a <;> rcases r with _ | b <;> rcases w with _ | c <;>
      rcases s with _ | d <;>
      simp [finishOverall, serverOverall, meanHalf, ofOpt, numFilter,
        roundIELTS_eq_roundHalf_all]
  · have key : roundIELTS ((13/2 + 7 : ℚ) / 2) = 7 := by
      have h : ((13 : ℚ)/2 + 7) / 2 = ((6 : ℤ) : ℚ) + 3/4 := by norm_num
      rw [h]
      have hf : ⌊((6 : ℤ) : ℚ) + 3/4⌋ = 6 := by
        rw [Int.floor_int_add]; norm_num
      simp only [roundIELTS, hf]
      norm_num
    simp [finishOverall, meanHalf, ofOpt, numFilter, key]

/-- C2 witness: the aggregator instantiated at `(6.5, null, 7.0, null)`,
discharging the non-empty hypothesis there. -/
theorem C2_aggregate_witness :
    finishOverall (some (13/2)) none (some 7) none
      = some (roundIELTS (([some ((13:ℚ)/2), none, some 7, none].filterMap id).sum
          / ([some ((13:ℚ)/2), none, some 7, none].filterMap id).length)) :=
  (C2_aggregate (some (13/2)) none (some 7) none).2.1 (by simp)

/-- C5: the listening raw-to-band lookup maps raw `0`/`1` to `4.5`,
`2`/`3` to `5.5`, `4`/`5` to `6.5`, and a perfect `6` to `6.5` under the
diagnostic ceiling, while the uncapped `api.ts` variant maps the top bucket
to `7.5`. -/
theorem C5_listeningBand :
    computeListeningBand 0 = 9/2 ∧ computeListeningBand 1 = 9/2
    ∧ computeListeningBand 2 = 11/2 ∧ computeListeningBand 3 = 11/2
    ∧ computeListeningBand 4 = 13/2 ∧ computeListeningBand 5 = 13/2
    ∧ computeListeningBand 6 = 13/2 ∧ computeListeningBandApi 6 = 15/2 := by
  norm_num [computeListeningBand, computeListeningBandApi]

/-- C3: at `on_topic_percent = 0` (with `off_topic` not set) the off-topic
cap is skipped, because `on_topic_percent && on_topic_percent <= 50` is
falsy at `0` in JavaScript: an overall of `7` is returned unchanged, not
clamped to `3.0`.  For comparison, `on_topic_percent = 1` and
`off_topic = true` do clamp to exactly `3.0`. -/
theorem C3_offTopicCap_bug :
    scoreWritingPost 7 false (some 0) 300 250 = 7
    ∧ scoreWritingPost 7 false (some 1) 300 250 = 3
    ∧ scoreWritingPost 7 true none 300 250 = 3 := by
  refine ⟨?_, ?_, ?_⟩ <;>
    · simp only [scoreWritingPost, otpCapTriggers, roundHalf, jsRound]
      norm_num

/-- C9: the banded rounding is idempotent — its output is an integer or a
half-integer, and both are fixed points of `roundIELTS`. -/
theorem C9_roundIELTS_idempotent (x : ℚ) :
    roundIELTS (roundIELTS x) = roundIELTS x := by
  by_cases h1 : x - ⌊x⌋ < 1/4
  · rw [show roundIELTS x = ((⌊x⌋ : ℤ) : ℚ) by
        unfold roundIELTS; rw [if_pos h1]]
    exact roundIELTS_intCast _
  · by_cases h2 : x - ⌊x⌋ < 3/4
    · rw [show roundIELTS x = ((⌊x⌋ : ℤ) : ℚ) + 1/2 by
        unfold roundIELTS; rw [if_neg h1, if_pos h2]]
      exact roundIELTS_int_add_half _
    · rw [show roundIELTS x = ((⌊x⌋ + 1 : ℤ) : ℚ) by
        unfold roundIELTS; rw [if_neg h1, if_neg h2]; push_cast; ring]
      exact roundIELTS_intCast _

/-- C10: `meanHalf` treats `NaN`, `null` and `undefined` entries alike —
replacing every non-number entry by `null` leaves the result unchanged (so a
`NaN` band never propagates into the overall), and a list whose entries are
all `NaN`/`null`/`undefined` yields `null`. -/
theorem C10_meanHalf_absent (vals : List JSNum) :
    meanHalf vals = meanHalf (vals.map fun v => match v with
      | JSNum.num q => JSNum.num q
      | _ => JSNum.null)
    ∧ ((∀ v ∈ vals, v = JSNum.nan ∨ v = JSNum.null ∨ v = JSNum.undef) →
        meanHalf vals = none) := by
  constructor
  · simp only [meanHalf, filterMap_numFilter_absent]
  · intro h
    simp [meanHalf, filterMap_numFilter_eq_nil vals h]

/-- C10 witness: the all-absent list `[NaN, null, undefined]` aggregates to
`null`. -/
theorem C10_meanHalf_absent_witness :
    meanHalf [JSNum.nan, JSNum.null, JSNum.undef] = none :=
  (C10_meanHalf_absent [JSNum.nan, JSNum.null, JSNum.undef]).2 (by
    intro v hv
    fin_cases hv <;> simp)

/-- C4: the speaking composite is *not* the half rounding of the mean over
present sub-criteria only — with a single present band `4.0`, the code
defaults the three absent bands to `5.5` and returns `5.0`, not
`roundIELTS 4 = 4`, and its result is a number (never `null`). -/
theorem C4_counterexample :
    speakingOverall (some 4) none none none = 5
    ∧ roundIELTS 4 = 4
    ∧ (5 : ℚ) ≠ 4 := by
  refine ⟨?_, ?_, by norm_num⟩
  · have hnone : speakingBand none = 11/2 := by
      simp only [speakingBand, cap65, roundHalf, jsRound, Option.getD]
      norm_num [min_def]
    have h4 : speakingBand (some 4) = 4 := by
      simp only [speakingBand, cap65, roundHalf, jsRound, Option.getD]
      norm_num [min_def]
    simp only [speakingOverall, hnone, h4, cap65, roundHalf, jsRound]
    norm_num [min_def]
  · have h4 : ((4 : ℚ)) = ((4 : ℤ) : ℚ) := by norm_num
    rw [h4, roundIELTS_intCast]

/-- C4 (amended): absent sub-criteria are replaced by the default `5.5`
rather than excluded — the composite equals the all-present composite with
every absent band filled in as `5.5`, it is
`min(6.5, roundHalf(mean of the four processed sub-bands))`, and it is never
`null` (all four absent yields `5.5`). -/
theorem C4_amended (fc lx gr pr : Option ℚ) :
    speakingOverall fc lx gr pr
      = speakingOverall (some (fc.getD (11/2))) (some (lx.getD (11/2)))
          (some (gr.getD (11/2))) (some (pr.getD (11/2)))
    ∧ speakingOverall fc lx gr pr
      = cap65 (roundHalf ((speakingBand fc + speakingBand lx
          + speakingBand gr + speakingBand pr) / 4))
    ∧ speakingOverall none none none none = 11/2 := by
  have hb : ∀ b : Option ℚ, speakingBand (some (b.getD (11/2))) = speakingBand b := by
    intro b; cases b <;> rfl
  refine ⟨?_, rfl, ?_⟩
  · simp only [speakingOverall, hb]
  · have hnone : speakingBand none = 11/2 := by
      simp only [speakingBand, cap65, roundHalf, jsRound, Option.getD]
      norm_num [min_def]
    simp only [speakingOverall, hnone, cap65, roundHalf, jsRound]
    norm_num [min_def]

end Scoring

namespace SpeakingFeatures

/-- Helper: `toFixed2` preserves non-negativity. -/
theorem toFixed2_nonneg {x : ℚ} (h : 0 ≤ x) : 0 ≤ toFixed2 x := by
  unfold toFixed2
  have h2 : (0 : ℤ) ≤ ⌊x * 100 + 1/2⌋ := by
    rw [Int.floor_nonneg]
    nlinarith
  exact div_nonneg (by exact_mod_cast h2) (by norm_num)

/-- Helper: every recorded pause gap is non-negative (each is
`Math.max(0, …)`). -/
theorem pauseGaps_nonneg (segments : List Segment) :
    ∀ g ∈ pauseGaps segments, 0 ≤ g := by
  intro g hg
  rw [pauseGaps, List.mem_filter] at hg
  obtain ⟨hg1, -⟩ := hg
  rw [List.mem_map] at hg1
  obtain ⟨pr, -, rfl⟩ := hg1
  exact le_max_left 0 _

/-- Helper: the mean-pause expression of both variants is non-negative. -/
theorem meanPauseExpr_nonneg (segments : List Segment) :
    0 ≤ (if (pauseGaps segments).isEmpty then (0 : ℚ)
      else ((pauseGaps segments).foldl (· + ·) 0) / (pauseGaps segments).length) := by
  split
  · exact le_refl 0
  · refine div_nonneg ?_ (by positivity)
    rw [← List.sum_eq_foldl]
    exact List.sum_nonneg (pauseGaps_nonneg segments)

/-- Helper: with no segments, `wpm` of the first variant is
`toFixed1(wordCount / max(wordCount/2.8, 1) * 60)` (the estimated duration
is at least 1, so the positive-duration branch is taken). -/
theorem v1_wpm_empty (raw : List Char) : (processTranscriptV1 raw []).2.wpm
    = toFixed1 ((((processTranscriptV1 raw []).2.wordCount : ℚ)
        / max (((processTranscriptV1 raw []).2.wordCount : ℚ) / (14/5)) 1) * 60) := by
  simp [processTranscriptV1]

/-- Helper: the same for the second variant. -/
theorem v2_wpm_empty (raw : List Char) : (processTranscriptV2 raw []).2.wpm
    = toFixed1 ((((processTranscriptV2 raw []).2.wordCount : ℚ)
        / max (((processTranscriptV2 raw []).2.wordCount : ℚ) / (14/5)) 1) * 60) := by
  simp [processTranscriptV2]

end SpeakingFeatures

/-- C6: on the stuttered single-sentence input the transcript normalizer is
the identity — the near-duplicate collapsing only compares whole sentences
split at `[.!?]` + whitespace, so `"I think I think that the plan works."`
is returned unchanged, not collapsed to `"I think that the plan works."`
as the function's own documentation and the spec promise. -/
theorem C6_stutter_unchanged :
    (TranscriptProcessor.processTranscript c6Input).text = c6Input
    ∧ c6Input ≠ c6Expected :=
  ⟨by decide, by decide⟩

set_option maxRecDepth 8000 in
/-- C7: with an empty segment list both feature-extractor variants report
`speechDuration = toFixed2(max(wordCount / 2.8, 1))` — the estimate at an
assumed 2.8 words/second, floored at 1 second — and on a 140-word transcript
they return `speechDuration = 50.0` and `wpm = 168`. -/
theorem C7_empty_segments_fallback (raw : List Char) :
    ((SpeakingFeatures.processTranscriptV1 raw []).2.speechDuration
      = SpeakingFeatures.toFixed2
          (max (((SpeakingFeatures.processTranscriptV1 raw []).2.wordCount : ℚ) / (14/5)) 1))
    ∧ ((SpeakingFeatures.processTranscriptV2 raw []).2.speechDuration
      = SpeakingFeatures.toFixed2
          (max (((SpeakingFeatures.processTranscriptV2 raw []).2.wordCount : ℚ) / (14/5)) 1))
    ∧ (SpeakingFeatures.processTranscriptV1 sample140 []).2.wordCount = 140
    ∧ (SpeakingFeatures.processTranscriptV1 sample140 []).2.speechDuration = 50
    ∧ (SpeakingFeatures.processTranscriptV1 sample140 []).2.wpm = 168
    ∧ (SpeakingFeatures.processTranscriptV2 sample140 []).2.wordCount = 140
    ∧ (SpeakingFeatures.processTranscriptV2 sample140 []).2.speechDuration = 50
    ∧ (SpeakingFeatures.processTranscriptV2 sample140 []).2.wpm = 168 := by
  have hwc1 : (SpeakingFeatures.processTranscriptV1 sample140 []).2.wordCount = 140 := by
    decide
  have hwc2 : (SpeakingFeatures.processTranscriptV2 sample140 []).2.wordCount = 140 := by
    decide
  have hmax : max ((140 : ℚ) / (14/5)) 1 = 50 := by
    rw [max_eq_left (by norm_num : (1 : ℚ) ≤ 140 / (14/5))]
    norm_num
  have hsd1 : (SpeakingFeatures.processTranscriptV1 sample140 []).2.speechDuration = 50 := by
    have h := show (SpeakingFeatures.processTranscriptV1 sample140 []).2.speechDuration
        = SpeakingFeatures.toFixed2
            (max (((SpeakingFeatures.processTranscriptV1 sample140 []).2.wordCount : ℚ)
              / (14/5)) 1) by
      simp [SpeakingFeatures.processTranscriptV1]
    rw [h, hwc1]
    norm_num [hmax, SpeakingFeatures.toFixed2]
  have hsd2 : (SpeakingFeatures.processTranscriptV2 sample140 []).2.speechDuration = 50 := by
    have h := show (SpeakingFeatures.processTranscriptV2 sample140 []).2.speechDuration
        = SpeakingFeatures.toFixed2
            (max (((SpeakingFeatures.processTranscriptV2 sample140 []).2.wordCount : ℚ)
              / (14/5)) 1) by
      simp [SpeakingFeatures.processTranscriptV2]
    rw [h, hwc2]
    norm_num [hmax, SpeakingFeatures.toFixed2]
  have hwpm1 : (SpeakingFeatures.processTranscriptV1 sample140 []).2.wpm = 168 := by
    rw [SpeakingFeatures.v1_wpm_empty, hwc1]
    norm_num [hmax, SpeakingFeatures.toFixed1]
  have hwpm2 : (SpeakingFeatures.processTranscriptV2 sample140 []).2.wpm = 168 := by
    rw [SpeakingFeatures.v2_wpm_empty, hwc2]
    norm_num [hmax, SpeakingFeatures.toFixed1]
  refine ⟨by simp [SpeakingFeatures.processTranscriptV1],
    by simp [SpeakingFeatures.processTranscriptV2],
    hwc1, hsd1, hwpm1, hwc2, hsd2, hwpm2⟩

/-- C8: the claim fails on the first variant — with segments whose last end
(1s) precedes the first start (10s), `speechDuration` is the unclamped
`1 - 10 = -9`, a negative duration. -/
theorem C8_counterexample :
    (SpeakingFeatures.processTranscriptV1 [] badSegs).2.speechDuration = -9
    ∧ ¬ (0 ≤ (SpeakingFeatures.processTranscriptV1 [] badSegs).2.speechDuration) := by
  have h : (SpeakingFeatures.processTranscriptV1 [] badSegs).2.speechDuration = -9 := by
    simp only [SpeakingFeatures.processTranscriptV1, badSegs]
    norm_num [SpeakingFeatures.toFixed2, List.getLastD, List.headD]
  exact ⟨h, by rw [h]; norm_num⟩

/-- C8 (amended): for every transcript and every segment list, the second
variant satisfies the full invariant (`longPauseCount ≤ pauseCount`, and
`speechDuration`, `meanPauseDuration` and every recorded pause gap are
`≥ 0`); the first variant satisfies all of it except the `speechDuration`
bound: there `speechDuration` is the unclamped, `toFixed2`-rounded
`last.end - first.start`, which is negative exactly when the timings are
reversed. -/
theorem C8_amended (raw : List Char) (segments : List SpeakingFeatures.Segment) :
    ((SpeakingFeatures.processTranscriptV2 raw segments).2.longPauseCount
      ≤ (SpeakingFeatures.processTranscriptV2 raw segments).2.pauseCount)
    ∧ 0 ≤ (SpeakingFeatures.processTranscriptV2 raw segments).2.speechDuration
    ∧ 0 ≤ (SpeakingFeatures.processTranscriptV2 raw segments).2.meanPauseDuration
    ∧ (∀ g ∈ SpeakingFeatures.pauseGaps segments, 0 ≤ g)
    ∧ ((SpeakingFeatures.processTranscriptV1 raw segments).2.longPauseCount
      ≤ (SpeakingFeatures.processTranscriptV1 raw segments).2.pauseCount)
    ∧ 0 ≤ (SpeakingFeatures.processTranscriptV1 raw segments).2.meanPauseDuration
    ∧ (segments ≠ [] →
        (SpeakingFeatures.processTranscriptV1 raw segments).2.speechDuration
          = SpeakingFeatures.toFixed2
              (((segments.getLastD default).stop.getD 0)
                - ((segments.headD default).start.getD 0))) := by
  refine ⟨?_, ?_, ?_, SpeakingFeatures.pauseGaps_nonneg segments, ?_, ?_, ?_⟩
  · simp only [SpeakingFeatures.processTranscriptV2]
    exact List.length_filter_le _ _
  · simp only [SpeakingFeatures.processTranscriptV2]
    apply SpeakingFeatures.toFixed2_nonneg
    split
    · exact le_max_left 0 _
    · exact le_trans zero_le_one (le_max_right _ 1)
  · simp only [SpeakingFeatures.processTranscriptV2]
    exact SpeakingFeatures.toFixed2_nonneg (SpeakingFeatures.meanPauseExpr_nonneg segments)
  · simp only [SpeakingFeatures.processTranscriptV1]
    exact List.length_filter_le _ _
  · simp only [SpeakingFeatures.processTranscriptV1]
    exact SpeakingFeatures.toFixed2_nonneg (SpeakingFeatures.meanPauseExpr_nonneg segments)
  · intro hne
    have hlen : segments.length ≠ 0 := by
      simpa [List.length_eq_zero] using hne
    simp only [SpeakingFeatures.processTranscriptV1]
    rw [if_pos hlen]

/-- C8 witness: the amended claim instantiated at a well-formed two-segment
list with a one-second gap, discharging the membership and non-emptiness
hypotheses there. -/
theorem C8_amended_witness :
    0 ≤ (SpeakingFeatures.processTranscriptV2 [] okSegs).2.speechDuration
    ∧ 0 ≤ (max (0 : ℚ) (((some (2 : ℚ)).getD 0) - ((some (1 : ℚ)).getD 0)))
    ∧ (SpeakingFeatures.processTranscriptV1 [] okSegs).2.speechDuration
        = SpeakingFeatures.toFixed2
            (((okSegs.getLastD default).stop.getD 0)
              - ((okSegs.headD default).start.getD 0)) := by
  have h := C8_amended [] okSegs
  refine ⟨h.2.1, ?_, h.2.2.2.2.2.2 (by simp [okSegs])⟩
  refine h.2.2.2.1 _ ?_
  simp only [SpeakingFeatures.pauseGaps, okSegs, List.zip, List.tail,
    List.zipWith, List.map, List.mem_filter, List.mem_cons]
  norm_num
